import Mathlib

/-!
Shallow embedding of the Availability Resolution Engine of the staff module
(`src/models.py` and `src/services/staff_service.py`).

Modelling conventions:
* Calendar dates are day numbers (`Nat`) with an epoch falling on a Monday,
  so Python's `date.weekday()` (Monday = 0) becomes `d % 7`.
* Times of day are minutes since midnight (`Nat`); Python `time` comparison
  coincides with `Nat` comparison, and the `datetime` arithmetic inside
  `get_available_slots` (all on one calendar day) becomes `Nat` addition.
* Django querysets over a staff member's related records become `List`s,
  kept in the queryset's iteration order; `filter` is `List.filter`,
  `.first()` is `List.head?`, `.get(day_of_week=...)` (unique per schedule
  and weekday by `unique_together`) is `List.find?`.
* Statuses are the `String` literals used by the source.
* The `while` loop of `get_available_slots` is embedded as a fuel-indexed
  function `slotsLoop` returning `none` when the fuel runs out before the
  loop condition fails, so non-termination of the source loop is expressible.
-/

/-- `StaffWorkingHours` model (`src/models.py`): per-weekday hours of a
schedule. `break_start`/`break_end` are nullable. -/
structure StaffWorkingHours where
  day_of_week : Nat
  start_time : Nat
  end_time : Nat
  break_start : Option Nat
  break_end : Option Nat
  is_working : Bool
deriving DecidableEq, Repr

/-- `StaffSchedule` model (`src/models.py`): a weekly template owned by a
staff member, with optional effective-date window and its working-hours rows. -/
structure StaffSchedule where
  is_default : Bool
  effective_from : Option Nat
  effective_until : Option Nat
  is_active : Bool
  working_hours : List StaffWorkingHours
deriving DecidableEq, Repr

/-- `StaffTimeOff` model (`src/models.py`): a leave record with inclusive
date range, optional partial-day times, full-day flag and status string. -/
structure StaffTimeOff where
  start_date : Nat
  end_date : Nat
  start_time : Option Nat
  end_time : Option Nat
  is_full_day : Bool
  status : String
deriving DecidableEq, Repr

/-- `StaffMember` model (`src/models.py`): status string, bookable flag, and
the related `schedules` and `time_off` collections (in queryset order). -/
structure StaffMember where
  status : String
  is_bookable : Bool
  schedules : List StaffSchedule
  time_off : List StaffTimeOff
deriving DecidableEq, Repr

/-- Python's `date.weekday()` under the day-number date model (epoch Monday). -/
def weekday (d : Nat) : Nat := d % 7

/-- `StaffMember.is_available` property (`src/models.py` lines 239-242):
`self.status == 'active' and self.is_bookable`. -/
def StaffMember.is_available (s : StaffMember) : Bool :=
  s.status == "active" && s.is_bookable

/-- `StaffSchedule.is_applicable_on` (`src/models.py` lines 310-318):
inactive schedules are never applicable; the effective window bounds are
inclusive and each side is open when unset. -/
def StaffSchedule.is_applicable_on (s : StaffSchedule) (target_date : Nat) : Bool :=
  if !s.is_active then false
  else if (match s.effective_from with
           | some f => decide (target_date < f)
           | none => false) then false
  else if (match s.effective_until with
           | some u => decide (u < target_date)
           | none => false) then false
  else true

/-- `schedule.working_hours.get(day_of_week=dow)` returning the row or
`DoesNotExist` as `none`; unique per `(schedule, day_of_week)`. -/
def StaffSchedule.whForDay (s : StaffSchedule) (dow : Nat) : Option StaffWorkingHours :=
  s.working_hours.find? (fun h => h.day_of_week == dow)

namespace StaffService

/-- The `for schedule in schedules` loop of `get_staff_schedule_for_date`
(`src/services/staff_service.py` lines 498-504): first applicable schedule
that has a working-hours row for the weekday; `DoesNotExist` continues to
the next schedule. -/
def findApplicableWH : List StaffSchedule → Nat → Option StaffWorkingHours
  | [], _ => none
  | s :: rest, target_date =>
    if s.is_applicable_on target_date then
      match s.whForDay (weekday target_date) with
      | some wh => some wh
      | none => findApplicableWH rest target_date
    else findApplicableWH rest target_date

/-- `StaffService.get_staff_schedule_for_date` (`src/services/staff_service.py`
lines 489-516): scan active schedules for an applicable one with a row for the
weekday; otherwise fall back to the first active default schedule's row
(the fallback does not re-check the effective window). -/
def get_staff_schedule_for_date (staff : StaffMember) (target_date : Nat) :
    Option StaffWorkingHours :=
  let schedules := staff.schedules.filter (·.is_active)
  match findApplicableWH schedules target_date with
  | some wh => some wh
  | none =>
    match (schedules.filter (·.is_default)).head? with
    | some dft => dft.whForDay (weekday target_date)
    | none => none

/-- `StaffService.get_schedule_for_day` (`src/services/staff_service.py`
lines 796-808): row of the first active default schedule for the weekday;
no effective-window check at all. -/
def get_schedule_for_day (staff : StaffMember) (day_of_week : Nat) :
    Option StaffWorkingHours :=
  match (staff.schedules.filter (fun s => s.is_default && s.is_active)).head? with
  | some dft => dft.whForDay day_of_week
  | none => none

/-- The time-off queryset filter shared by `is_available` and
`is_staff_available_at`: `status='approved', start_date__lte=d, end_date__gte=d`. -/
def approvedCovering (d : Nat) (r : StaffTimeOff) : Bool :=
  r.status == "approved" && decide (r.start_date ≤ d) && decide (d ≤ r.end_date)

/-- Body of the `for to in time_off` loop: a record returns `False` when it is
full-day, or when both partial-day times are set (non-`None`) and
`start_time <= target_time <= end_time` (both bounds inclusive). -/
def recordBlocksTime (t : Nat) (r : StaffTimeOff) : Bool :=
  r.is_full_day ||
    (match r.start_time, r.end_time with
     | some ts, some te => decide (ts ≤ t) && decide (t ≤ te)
     | _, _ => false)

/-- The whole time-off check of `is_available` / `is_staff_available_at`
(`src/services/staff_service.py` lines 856-867 and 530-541). -/
def timeOffBlocksAt (staff : StaffMember) (d t : Nat) : Bool :=
  (staff.time_off.filter (approvedCovering d)).any (recordBlocksTime t)

/-- `StaffService.is_available` (`src/services/staff_service.py` lines
846-883): status gate, approved time-off check, then hours from
`get_schedule_for_day` with inclusive start / exclusive end, and the
break window with inclusive start / exclusive end. -/
def is_available (staff : StaffMember) (target_date target_time : Nat) : Bool :=
  if staff.status != "active" then false
  else if timeOffBlocksAt staff target_date target_time then false
  else
    match get_schedule_for_day staff (weekday target_date) with
    | none => false
    | some hours =>
      if !hours.is_working then false
      else if decide (target_time < hours.start_time)
              || decide (hours.end_time ≤ target_time) then false
      else
        match hours.break_start, hours.break_end with
        | some bs, some be =>
          if decide (bs ≤ target_time) && decide (target_time < be) then false
          else true
        | _, _ => true

/-- `StaffService.is_staff_available_at` (`src/services/staff_service.py`
lines 518-556): identical to `is_available` except hours come from
`get_staff_schedule_for_date` on the full date. -/
def is_staff_available_at (staff : StaffMember) (target_date target_time : Nat) : Bool :=
  if staff.status != "active" then false
  else if timeOffBlocksAt staff target_date target_time then false
  else
    match get_staff_schedule_for_date staff target_date with
    | none => false
    | some hours =>
      if !hours.is_working then false
      else if decide (target_time < hours.start_time)
              || decide (hours.end_time ≤ target_time) then false
      else
        match hours.break_start, hours.break_end with
        | some bs, some be =>
          if decide (bs ≤ target_time) && decide (target_time < be) then false
          else true
        | _, _ => true

/-- The `.exists()` time-off query of `get_available_slots`
(`src/services/staff_service.py` lines 598-606): an approved full-day record
covering the date. -/
def hasApprovedFullDayTimeOff (staff : StaffMember) (d : Nat) : Bool :=
  staff.time_off.any (fun r => approvedCovering d r && r.is_full_day)

/-- The per-candidate break test of `get_available_slots`
(`src/services/staff_service.py` lines 612-618): with both break bounds set,
`not (slot_end <= break_start or slot_time >= break_end)`; with either bound
unset the candidate is never skipped. -/
def overlapsBreak (dur : Nat) (bs be : Option Nat) (t : Nat) : Bool :=
  match bs, be with
  | some b1, some b2 => !(decide (t + dur ≤ b1) || decide (b2 ≤ t))
  | _, _ => false

/-- The `while current + duration <= end` loop of `get_available_slots`
(`src/services/staff_service.py` lines 608-625), fuel-indexed: `none` means
the fuel ran out with the loop still running.  A candidate overlapping a
defined break window is skipped; otherwise it is emitted; either way the
cursor advances by `slot_interval`. -/
def slotsLoop (dur int endT : Nat) (bs be : Option Nat) :
    Nat → Nat → List Nat → Option (List Nat)
  | 0, _, _ => none
  | fuel + 1, current, acc =>
    if decide (current + dur ≤ endT) then
      if overlapsBreak dur bs be current then
        slotsLoop dur int endT bs be fuel (current + int) acc
      else slotsLoop dur int endT bs be fuel (current + int) (acc ++ [current])
    else some acc

/-- `StaffService.get_available_slots` (`src/services/staff_service.py`
lines 583-625).  The loop is run with fuel `end_time + 2`, which is proven
sufficient whenever `slot_interval ≥ 1` (`slotsLoop_isSome_of_pos`); for
`slot_interval = 0` the source loop does not terminate (`slotsLoop_int_zero`)
and the embedding falls back to `[]` via `getD`. -/
def get_available_slots (staff : StaffMember) (target_date : Nat)
    (duration_minutes slot_interval : Nat) : List Nat :=
  match get_staff_schedule_for_date staff target_date with
  | none => []
  | some hours =>
    if !hours.is_working then []
    else if hasApprovedFullDayTimeOff staff target_date then []
    else
      (slotsLoop duration_minutes slot_interval hours.end_time
        hours.break_start hours.break_end
        (hours.end_time + 2) hours.start_time []).getD []

/-! Concrete records used to evaluate the engine on explicit inputs.
Dates are day numbers with day 0 a Monday, so day 7 and day 0 are Mondays
and day 10 is a Thursday; times are minutes (540 = 09:00, 1020 = 17:00). -/

/-- Monday 09:00-17:00, no break, working. -/
def exWH : StaffWorkingHours := ⟨0, 540, 1020, none, none, true⟩

/-- A default, active schedule with an open effective window. -/
def exSched : StaffSchedule := ⟨true, none, none, true, [exWH]⟩

/-- A pending full-day leave covering days 0-100. -/
def exPendingFullDay : StaffTimeOff := ⟨0, 100, none, none, true, "pending"⟩

/-- An approved full-day leave covering days 0-100. -/
def exApprovedFullDay : StaffTimeOff := ⟨0, 100, none, none, true, "approved"⟩

/-- An approved partial-day leave 10:00-11:00 covering days 0-100. -/
def exPartialOff : StaffTimeOff := ⟨0, 100, some 600, some 660, false, "approved"⟩

/-- An approved non-full-day leave whose `end_time` is unset. -/
def exNoTimesOff : StaffTimeOff := ⟨0, 100, some 600, none, false, "approved"⟩

/-- Active bookable staff member with the plain Monday schedule. -/
def exStaff : StaffMember := ⟨"active", true, [exSched], []⟩

/-- Active staff whose only time off is the pending full-day record. -/
def exStaffC1 : StaffMember := ⟨"active", true, [exSched], [exPendingFullDay]⟩

/-- Active staff whose only time off is the approved full-day record. -/
def exStaffApproved : StaffMember := ⟨"active", true, [exSched], [exApprovedFullDay]⟩

/-- A default, active schedule that expired on day 5, with Thursday hours. -/
def exSchedUntil : StaffSchedule := ⟨true, none, some 5, true, [⟨3, 540, 1020, none, none, true⟩]⟩

/-- Active staff whose only schedule expired on day 5. -/
def exStaffC2 : StaffMember := ⟨"active", true, [exSchedUntil], []⟩

/-- An inactive default schedule. -/
def exInactiveSched : StaffSchedule := ⟨true, none, none, false, [exWH]⟩

/-- Active staff whose only schedule is inactive. -/
def exStaffNoSched : StaffMember := ⟨"active", true, [exInactiveSched], []⟩

/-- Active but NOT bookable staff member with the plain Monday schedule. -/
def exStaffC3 : StaffMember := ⟨"active", false, [exSched], []⟩

/-- Inactive staff member with the plain Monday schedule. -/
def exStaffInactive : StaffMember := ⟨"inactive", true, [exSched], []⟩

/-- Default, active, applicable schedule with no working-hours rows at all. -/
def schedA : StaffSchedule := ⟨true, none, none, true, []⟩

/-- Monday 10:00-15:00 row owned by the non-default schedule. -/
def whB : StaffWorkingHours := ⟨0, 600, 900, none, none, true⟩

/-- Non-default, active, applicable schedule holding `whB`. -/
def schedB : StaffSchedule := ⟨false, none, none, true, [whB]⟩

/-- Staff owning the row-less default schedule and the non-default one. -/
def exStaffC4 : StaffMember := ⟨"active", true, [schedA, schedB], []⟩

/-- Monday 09:00-17:00 with a 12:00-13:00 break. -/
def whBreak : StaffWorkingHours := ⟨0, 540, 1020, some 720, some 780, true⟩

/-- Default active schedule holding the break row. -/
def schedBreak : StaffSchedule := ⟨true, none, none, true, [whBreak]⟩

/-- Active staff with the break schedule. -/
def exStaffBreak : StaffMember := ⟨"active", true, [schedBreak], []⟩

/-- Active staff whose only time off is the approved partial-day record. -/
def exStaffPartial : StaffMember := ⟨"active", true, [exSched], [exPartialOff]⟩

/-- With `slot_interval = 0` and a viable first candidate, the slot loop never
terminates: every fuel budget is exhausted. -/
theorem slotsLoop_int_zero (dur endT : Nat) (bs be : Option Nat) :
    ∀ (fuel current : Nat) (acc : List Nat), current + dur ≤ endT →
      slotsLoop dur 0 endT bs be fuel current acc = none := by
  intro fuel
  induction fuel with
  | zero => intro current acc _; rfl
  | succ n ih =>
    intro current acc h
    rw [slotsLoop, decide_eq_true h, if_pos rfl]
    by_cases hb : overlapsBreak dur bs be current = true
    · rw [if_pos hb, Nat.add_zero]
      exact ih current acc h
    · rw [if_neg hb, Nat.add_zero]
      exact ih current (acc ++ [current]) h

/-- With a positive `slot_interval`, any fuel strictly exceeding
`endT + 1 - current` (and at least 1) lets the slot loop run to completion. -/
theorem slotsLoop_isSome_of_pos (dur int endT : Nat) (bs be : Option Nat)
    (hint : 1 ≤ int) :
    ∀ (fuel current : Nat) (acc : List Nat), 1 ≤ fuel → endT + 1 < current + fuel →
      (slotsLoop dur int endT bs be fuel current acc).isSome = true := by
  intro fuel
  induction fuel with
  | zero => intro current acc h1 _; exact absurd h1 (by omega)
  | succ n ih =>
    intro current acc _ hlt
    rw [slotsLoop]
    by_cases hc : current + dur ≤ endT
    · rw [decide_eq_true hc, if_pos rfl]
      have hcur : current ≤ endT := le_trans (Nat.le_add_right current dur) hc
      have hn1 : 1 ≤ n := by omega
      have hrec : endT + 1 < current + int + n := by omega
      by_cases hb : overlapsBreak dur bs be current = true
      · rw [if_pos hb]; exact ih (current + int) acc hn1 hrec
      · rw [if_neg hb]; exact ih (current + int) (acc ++ [current]) hn1 hrec
    · rw [decide_eq_false hc]
      simp

/-- Every element of a completed slot-loop run is either from the initial
accumulator or a candidate that fit before `endT` and cleared the break test. -/
theorem slotsLoop_mem (dur int endT : Nat) (bs be : Option Nat) :
    ∀ (fuel current : Nat) (acc l : List Nat),
      slotsLoop dur int endT bs be fuel current acc = some l →
      ∀ t ∈ l, t ∈ acc ∨ (t + dur ≤ endT ∧ overlapsBreak dur bs be t = false) := by
  intro fuel
  induction fuel with
  | zero => intro current acc l h; exact absurd h (by simp [slotsLoop])
  | succ n ih =>
    intro current acc l h
    rw [slotsLoop] at h
    by_cases hc : current + dur ≤ endT
    · rw [decide_eq_true hc, if_pos rfl] at h
      by_cases hb : overlapsBreak dur bs be current = true
      · rw [if_pos hb] at h
        exact ih (current + int) acc l h
      · rw [if_neg hb] at h
        intro t ht
        rcases ih (current + int) (acc ++ [current]) l h t ht with h1 | h2
        · rcases List.mem_append.mp h1 with h3 | h4
          · exact Or.inl h3
          · have heq : t = current := by simpa using h4
            subst heq
            exact Or.inr ⟨hc, Bool.eq_false_iff.mpr hb⟩
        · exact Or.inr h2
    · rw [decide_eq_false hc] at h
      have heq : acc = l := by simpa using h
      subst heq
      intro t ht
      exact Or.inl ht

/-- With a positive `slot_interval`, a completed slot-loop run extends a
strictly ascending accumulator whose elements lie below the cursor into a
strictly ascending result. -/
theorem slotsLoop_pairwise (dur int endT : Nat) (bs be : Option Nat)
    (hint : 1 ≤ int) :
    ∀ (fuel current : Nat) (acc l : List Nat),
      acc.Pairwise (· < ·) → (∀ x ∈ acc, x < current) →
      slotsLoop dur int endT bs be fuel current acc = some l →
      l.Pairwise (· < ·) := by
  intro fuel
  induction fuel with
  | zero => intro current acc l _ _ h; exact absurd h (by simp [slotsLoop])
  | succ n ih =>
    intro current acc l hpw hbnd h
    rw [slotsLoop] at h
    by_cases hc : current + dur ≤ endT
    · rw [decide_eq_true hc, if_pos rfl] at h
      by_cases hb : overlapsBreak dur bs be current = true
      · rw [if_pos hb] at h
        refine ih (current + int) acc l hpw (fun x hx => ?_) h
        exact lt_of_lt_of_le (hbnd x hx) (Nat.le_add_right current int)
      · rw [if_neg hb] at h
        refine ih (current + int) (acc ++ [current]) l ?_ (fun x hx => ?_) h
        · refine List.pairwise_append.mpr ⟨hpw, List.pairwise_singleton .., ?_⟩
          intro a ha b hb'
          have heq : b = current := by simpa using hb'
          subst heq
          exact hbnd a ha
        · rcases List.mem_append.mp hx with h1 | h2
          · exact lt_of_lt_of_le (hbnd x h1) (Nat.le_add_right current int)
          · have heq : x = current := by simpa using h2
            subst heq
            omega
    · rw [decide_eq_false hc] at h
      have heq : acc = l := by simpa using h
      subst heq
      exact hpw

/-- The applicable-schedule scan returns nothing exactly when every schedule
in the list that is applicable on the date lacks a working-hours row for the
date's weekday. -/
theorem findApplicableWH_eq_none_iff (d : Nat) (l : List StaffSchedule) :
    findApplicableWH l d = none ↔
      ∀ s ∈ l, s.is_applicable_on d = true → s.whForDay (weekday d) = none := by
  induction l with
  | nil => simp [findApplicableWH]
  | cons s rest ih =>
    rw [findApplicableWH]
    by_cases ha : s.is_applicable_on d = true
    · rw [if_pos ha]
      cases hwh : s.whForDay (weekday d) with
      | some wh =>
        simp only [hwh]
        constructor
        · intro h; cases h
        · intro h
          exact absurd (h s (List.mem_cons_self ..) ha) (by simp [hwh])
      | none =>
        simp only [hwh]
        rw [ih]
        constructor
        · intro h t ht hta
          rcases List.mem_cons.mp ht with rfl | htr
          · exact hwh
          · exact h t htr hta
        · intro h t ht hta
          exact h t (List.mem_cons_of_mem _ ht) hta
    · rw [if_neg ha, ih]
      constructor
      · intro h t ht hta
        rcases List.mem_cons.mp ht with rfl | htr
        · exact absurd hta ha
        · exact h t htr hta
      · intro h t ht hta
        exact h t (List.mem_cons_of_mem _ ht) hta

end StaffService

open StaffService

/-- C1 counterexample: a 'pending' full-day time-off record covering the
target date does not block: for a staff member whose only time-off record is
pending and full-day and covers day 7, `is_available` is true at 10:00 and
`available_slots` is non-empty — the blocking status set of these call sites
is `{approved}` alone, not `{pending, approved}`. -/
theorem C1_counterexample :
    exStaffC1.time_off = [exPendingFullDay] ∧
    exPendingFullDay.status = "pending" ∧
    exPendingFullDay.is_full_day = true ∧
    exPendingFullDay.start_date ≤ 7 ∧ (7 : Nat) ≤ exPendingFullDay.end_date ∧
    is_available exStaffC1 7 600 = true ∧
    get_available_slots exStaffC1 7 60 15 ≠ [] :=
  ⟨rfl, rfl, rfl, by decide, by decide, by decide, by decide⟩

/-- C1 amended: an APPROVED full-day time-off record whose date range covers
the target date makes `is_available` false at every time and
`available_slots` empty; 'pending' records do not block at these call sites. -/
theorem C1_amended_approved_full_day_blocks
    (staff : StaffMember) (r : StaffTimeOff) (d t dur int : Nat)
    (hr : r ∈ staff.time_off) (hs : r.status = "approved")
    (h1 : r.start_date ≤ d) (h2 : d ≤ r.end_date) (hf : r.is_full_day = true) :
    is_available staff d t = false ∧
    get_available_slots staff d dur int = [] := by
  have hcov : approvedCovering d r = true := by
    simp [approvedCovering, hs, h1, h2]
  have hblk : recordBlocksTime t r = true := by
    simp [recordBlocksTime, hf]
  have hto : timeOffBlocksAt staff d t = true :=
    List.any_eq_true.mpr ⟨r, List.mem_filter.mpr ⟨hr, hcov⟩, hblk⟩
  have hfd : hasApprovedFullDayTimeOff staff d = true :=
    List.any_eq_true.mpr ⟨r, hr, by simp [approvedCovering, hs, h1, h2, hf]⟩
  constructor
  · unfold is_available
    by_cases hst : (staff.status != "active") = true
    · rw [if_pos hst]
    · rw [if_neg hst, if_pos hto]
  · cases hres : get_staff_schedule_for_date staff d with
    | none => simp only [get_available_slots, hres]
    | some hours =>
      simp only [get_available_slots, hres]
      by_cases hw : (!hours.is_working) = true
      · rw [if_pos hw]
      · rw [if_neg hw, if_pos hfd]

/-- Closed witness for the amended C1 at a concrete staff member. -/
theorem C1_amended_witness :
    is_available exStaffApproved 7 600 = false ∧
    get_available_slots exStaffApproved 7 60 15 = [] :=
  C1_amended_approved_full_day_blocks exStaffApproved exApprovedFullDay 7 600 60 15
    (by decide) rfl (by decide) (by decide) rfl

/-- C2 counterexample: a default active schedule whose effective window
excludes the target date (effective_until = 5 < 10) IS used as a fallback:
with no applicable schedule on day 10, `is_available` is true at 10:00 and
`available_slots` is non-empty. -/
theorem C2_counterexample :
    exStaffC2.schedules.all (fun s => !(s.is_applicable_on 10)) = true ∧
    is_available exStaffC2 10 600 = true ∧
    get_available_slots exStaffC2 10 60 15 ≠ [] :=
  ⟨by decide, by decide, by decide⟩

/-- C2 amended: on a date where no schedule is applicable AND the staff
member has no schedule that is both active and default (so neither the
window-ignoring `get_schedule_for_day` lookup nor the default fallback of
`get_staff_schedule_for_date` can fire), `is_available` is false at every
time and `available_slots` is empty. -/
theorem C2_amended_no_applicable_no_default
    (staff : StaffMember) (d t dur int : Nat)
    (happ : ∀ s ∈ staff.schedules, s.is_applicable_on d = false)
    (hdef : ∀ s ∈ staff.schedules, ¬(s.is_active = true ∧ s.is_default = true)) :
    is_available staff d t = false ∧
    get_available_slots staff d dur int = [] := by
  have hgsd : get_schedule_for_day staff (weekday d) = none := by
    have hnil : staff.schedules.filter (fun s => s.is_default && s.is_active) = [] := by
      rw [List.filter_eq_nil_iff]
      intro s hs hb
      have hb2 : s.is_default = true ∧ s.is_active = true := by simpa using hb
      exact hdef s hs ⟨hb2.2, hb2.1⟩
    simp only [get_schedule_for_day, hnil, List.head?]
  have hfa : findApplicableWH (staff.schedules.filter (·.is_active)) d = none := by
    rw [findApplicableWH_eq_none_iff]
    intro s hs hsa
    have hfalse := happ s (List.mem_of_mem_filter hs)
    rw [hfalse] at hsa
    cases hsa
  have hres : get_staff_schedule_for_date staff d = none := by
    have hnil : (staff.schedules.filter (·.is_active)).filter (·.is_default) = [] := by
      rw [List.filter_eq_nil_iff]
      intro s hs hd1
      rcases List.mem_filter.mp hs with ⟨hmem, ha1⟩
      exact hdef s hmem ⟨ha1, hd1⟩
    simp only [get_staff_schedule_for_date, hfa, hnil, List.head?]
  constructor
  · unfold is_available
    by_cases hst : (staff.status != "active") = true
    · rw [if_pos hst]
    · rw [if_neg hst]
      by_cases hto : timeOffBlocksAt staff d t = true
      · rw [if_pos hto]
      · rw [if_neg hto, hgsd]
  · simp only [get_available_slots, hres]

/-- Closed witness for the amended C2 at a staff member whose only schedule
is inactive. -/
theorem C2_amended_witness :
    is_available exStaffNoSched 10 600 = false ∧
    get_available_slots exStaffNoSched 10 60 15 = [] :=
  C2_amended_no_applicable_no_default exStaffNoSched 10 600 60 15 (by decide) (by decide)

/-- C3 counterexample: a staff member with `is_bookable = false` but
`status = 'active'` and a normal Monday schedule is reported available by the
point-in-time check — `is_available` never consults `is_bookable`. -/
theorem C3_counterexample :
    exStaffC3.is_bookable = false ∧ is_available exStaffC3 7 600 = true :=
  ⟨rfl, by decide⟩

/-- C3 amended: the point-in-time check gates on `status == 'active'` alone;
its result is invariant under `is_bookable`, and a non-active status forces
false.  The combined `active AND bookable` gate lives only in the
`StaffMember.is_available` model property and the staff-collection queries. -/
theorem C3_amended_status_gate_only (staff : StaffMember) (d t : Nat) (b : Bool) :
    is_available { staff with is_bookable := b } d t = is_available staff d t ∧
    (staff.status ≠ "active" → is_available staff d t = false) ∧
    ({ staff with is_bookable := false } : StaffMember).is_available = false := by
  refine ⟨rfl, ?_, ?_⟩
  · intro hst
    unfold is_available
    rw [if_pos (bne_iff_ne.mpr hst)]
  · simp [StaffMember.is_available]

/-- Closed witness for the amended C3: toggling `is_bookable` on an active
member leaves `is_available` unchanged, an inactive member is unavailable,
and the model property is false for a non-bookable member. -/
theorem C3_amended_witness :
    is_available { exStaff with is_bookable := false } 7 600 = is_available exStaff 7 600 ∧
    is_available exStaffInactive 7 600 = false ∧
    ({ exStaff with is_bookable := false } : StaffMember).is_available = false :=
  ⟨(C3_amended_status_gate_only exStaff 7 600 false).1,
   (C3_amended_status_gate_only exStaffInactive 7 600 false).2.1 (by decide),
   (C3_amended_status_gate_only exStaff 7 600 false).2.2⟩

/-- C4 counterexample: schedule A is default, applicable on day 7 and has no
working-hours row for Monday, yet the resolver does NOT report NotFound: it
falls through to the non-default applicable schedule B and returns B's row. -/
theorem C4_counterexample :
    schedA.is_default = true ∧ schedA.is_applicable_on 7 = true ∧
    schedA.whForDay (weekday 7) = none ∧
    schedB.is_default = false ∧
    get_staff_schedule_for_date exStaffC4 7 = some whB :=
  ⟨rfl, by decide, by decide, rfl, by decide⟩

/-- C4 amended: the resolver scans ALL applicable active schedules in order,
falling through past any that lacks a row for the weekday, and then tries
the first active default schedule regardless of its effective window; the
result is NotFound exactly when every applicable active schedule and that
default fallback lack a working-hours row for the date's weekday. -/
theorem C4_amended_resolver_none_iff (staff : StaffMember) (d : Nat) :
    get_staff_schedule_for_date staff d = none ↔
      ((∀ s ∈ staff.schedules.filter (·.is_active), s.is_applicable_on d = true →
          s.whForDay (weekday d) = none) ∧
       (∀ dft, ((staff.schedules.filter (·.is_active)).filter (·.is_default)).head? =
            some dft → dft.whForDay (weekday d) = none)) := by
  unfold get_staff_schedule_for_date
  cases hfa : findApplicableWH (staff.schedules.filter (·.is_active)) d with
  | some wh =>
    simp only [hfa]
    constructor
    · intro h
      cases h
    · rintro ⟨h1, _⟩
      have hnone := (findApplicableWH_eq_none_iff d _).mpr h1
      rw [hnone] at hfa
      cases hfa
  | none =>
    simp only [hfa]
    cases hhd : ((staff.schedules.filter (·.is_active)).filter (·.is_default)).head? with
    | some dft =>
      simp only [hhd]
      constructor
      · intro h
        refine ⟨(findApplicableWH_eq_none_iff d _).mp hfa, ?_⟩
        intro dft2 hd2
        cases hd2
        exact h
      · rintro ⟨_, h2⟩
        exact h2 dft rfl
    | none =>
      simp only [hhd]
      constructor
      · intro _
        refine ⟨(findApplicableWH_eq_none_iff d _).mp hfa, ?_⟩
        intro dft2 hd2
        exact Option.noConfusion hd2
      · intro _
        trivial

/-- C5 confirmed: for an active staff member on a resolvable working day
(working row, `start_time < end_time`, no break, time off not blocking at the
start), `is_available` is true at exactly `start_time` and false at exactly
`end_time`: the working-hours start bound is inclusive, the end exclusive. -/
theorem C5_start_inclusive_end_exclusive (staff : StaffMember) (d : Nat)
    (h : StaffWorkingHours)
    (hres : get_schedule_for_day staff (weekday d) = some h)
    (hst : staff.status = "active")
    (hto : timeOffBlocksAt staff d h.start_time = false)
    (hw : h.is_working = true)
    (hlt : h.start_time < h.end_time)
    (hb1 : h.break_start = none) (hb2 : h.break_end = none) :
    is_available staff d h.start_time = true ∧
    is_available staff d h.end_time = false := by
  constructor
  · unfold is_available
    rw [if_neg (by simp [hst]), if_neg (by simp [hto]), hres]
    simp only [hw, Bool.not_true, Bool.false_eq_true, if_false, hb1, hb2]
    rw [if_neg]
    simp only [Bool.or_eq_true, decide_eq_true_eq]
    omega
  · unfold is_available
    by_cases hg : (staff.status != "active") = true
    · rw [if_pos hg]
    · rw [if_neg hg]
      by_cases hto2 : timeOffBlocksAt staff d h.end_time = true
      · rw [if_pos hto2]
      · rw [if_neg hto2, hres]
        simp only [hw, Bool.not_true, Bool.false_eq_true, if_false]
        rw [if_pos]
        simp

/-- Closed witness for C5 on the plain Monday schedule: available at 09:00,
not available at 17:00. -/
theorem C5_witness :
    is_available exStaff 7 540 = true ∧ is_available exStaff 7 1020 = false :=
  C5_start_inclusive_end_exclusive exStaff 7 exWH (by decide) rfl rfl rfl
    (by decide) rfl rfl

/-- C6 confirmed: every start time emitted by `available_slots` fits inside
the resolved working window: `t + duration <= end_time`. -/
theorem C6_slots_within_end (staff : StaffMember) (d dur int t : Nat)
    (h : StaffWorkingHours)
    (hres : get_staff_schedule_for_date staff d = some h)
    (hmem : t ∈ get_available_slots staff d dur int) :
    t + dur ≤ h.end_time := by
  simp only [get_available_slots, hres] at hmem
  by_cases hw : (!h.is_working) = true
  · rw [if_pos hw] at hmem
    cases hmem
  · rw [if_neg hw] at hmem
    by_cases hfd : hasApprovedFullDayTimeOff staff d = true
    · rw [if_pos hfd] at hmem
      cases hmem
    · rw [if_neg hfd] at hmem
      cases hloop : slotsLoop dur int h.end_time h.break_start h.break_end
          (h.end_time + 2) h.start_time [] with
      | none =>
        rw [hloop] at hmem
        cases hmem
      | some l =>
        rw [hloop] at hmem
        rcases slotsLoop_mem dur int h.end_time h.break_start h.break_end
            _ _ _ _ hloop t hmem with h1 | h2
        · cases h1
        · exact h2.1

/-- Closed witness for C6: slot 09:00 of the plain Monday schedule fits
before 17:00. -/
theorem C6_witness : (540 : Nat) + 60 ≤ exWH.end_time :=
  C6_slots_within_end exStaff 7 60 15 540 exWH (by decide) (by decide)

/-- C7 confirmed: when the resolved working hours define a break window, no
emitted slot overlaps it: each emitted `t` has `t + duration <= break_start`
or `t >= break_end`. -/
theorem C7_slots_avoid_break (staff : StaffMember) (d dur int t b1 b2 : Nat)
    (h : StaffWorkingHours)
    (hres : get_staff_schedule_for_date staff d = some h)
    (hb1 : h.break_start = some b1) (hb2 : h.break_end = some b2)
    (hmem : t ∈ get_available_slots staff d dur int) :
    t + dur ≤ b1 ∨ b2 ≤ t := by
  simp only [get_available_slots, hres] at hmem
  by_cases hw : (!h.is_working) = true
  · rw [if_pos hw] at hmem
    cases hmem
  · rw [if_neg hw] at hmem
    by_cases hfd : hasApprovedFullDayTimeOff staff d = true
    · rw [if_pos hfd] at hmem
      cases hmem
    · rw [if_neg hfd] at hmem
      cases hloop : slotsLoop dur int h.end_time h.break_start h.break_end
          (h.end_time + 2) h.start_time [] with
      | none =>
        rw [hloop] at hmem
        cases hmem
      | some l =>
        rw [hloop] at hmem
        rcases slotsLoop_mem dur int h.end_time h.break_start h.break_end
            _ _ _ _ hloop t hmem with h1 | h2
        · cases h1
        · have hov := h2.2
          rw [hb1, hb2] at hov
          simp only [overlapsBreak, Bool.not_eq_false', Bool.or_eq_true,
            decide_eq_true_eq] at hov
          exact hov

/-- Closed witness for C7: slot 09:00 of the break schedule (break
12:00-13:00) ends by 12:00. -/
theorem C7_witness : (540 : Nat) + 60 ≤ 720 ∨ (780 : Nat) ≤ 540 :=
  C7_slots_avoid_break exStaffBreak 7 60 15 540 720 780 whBreak
    (by decide) rfl rfl (by decide)

/-- C8 confirmed: an approved partial-day time-off record (not full-day, both
times set, date range covering the target date) blocks `is_available` at
every time `t` with `start_time <= t <= end_time` — both bounds inclusive,
so in particular at exactly the record's `end_time`. -/
theorem C8_partial_time_off_inclusive (staff : StaffMember) (r : StaffTimeOff)
    (d t ts te : Nat)
    (hr : r ∈ staff.time_off) (hs : r.status = "approved")
    (h1 : r.start_date ≤ d) (h2 : d ≤ r.end_date)
    (_hfd : r.is_full_day = false)
    (hts : r.start_time = some ts) (hte : r.end_time = some te)
    (hlo : ts ≤ t) (hhi : t ≤ te) :
    is_available staff d t = false := by
  have hcov : approvedCovering d r = true := by
    simp [approvedCovering, hs, h1, h2]
  have hblk : recordBlocksTime t r = true := by
    simp [recordBlocksTime, hts, hte, hlo, hhi]
  have hto : timeOffBlocksAt staff d t = true :=
    List.any_eq_true.mpr ⟨r, List.mem_filter.mpr ⟨hr, hcov⟩, hblk⟩
  unfold is_available
  by_cases hg : (staff.status != "active") = true
  · rw [if_pos hg]
  · rw [if_neg hg, if_pos hto]

/-- Closed witness for C8 at exactly the time-off `end_time` (11:00): the
partial-day record 10:00-11:00 still blocks, unlike the exclusive
working-hours and break end bounds. -/
theorem C8_witness : is_available exStaffPartial 7 660 = false :=
  C8_partial_time_off_inclusive exStaffPartial exPartialOff 7 660 600 660
    (by decide) rfl (by decide) (by decide) rfl rfl rfl (by decide) (by decide)

/-- C9 counterexample: with `slot_interval = 0` and a viable first candidate
(09:00 + 60 <= 17:00) the slot-generation loop of `available_slots` never
terminates: no fuel budget completes it, refuting termination for every
`slot_interval` including 0. -/
theorem C9_counterexample :
    ¬ ∃ (fuel : Nat) (l : List Nat),
        slotsLoop 60 0 1020 none none fuel 540 [] = some l := by
  rintro ⟨fuel, l, hsome⟩
  rw [slotsLoop_int_zero 60 1020 none none fuel 540 [] (by omega)] at hsome
  cases hsome

/-- C9 amended: for every positive `slot_interval` the loop terminates
(fuel `end + 2` always completes it, from any start and break bounds) and
`available_slots` returns a finite strictly ascending sequence of start
times; with `slot_interval = 0` and a viable first candidate the source loop
does not terminate. -/
theorem C9_amended_terminates_ascending (staff : StaffMember)
    (d dur int e st : Nat) (bs be : Option Nat) (hint : 1 ≤ int) :
    (slotsLoop dur int e bs be (e + 2) st []).isSome = true ∧
    (get_available_slots staff d dur int).Pairwise (· < ·) := by
  constructor
  · exact slotsLoop_isSome_of_pos dur int e bs be hint (e + 2) st [] (by omega) (by omega)
  · cases hres : get_staff_schedule_for_date staff d with
    | none =>
      simp only [get_available_slots, hres]
      exact List.Pairwise.nil
    | some h =>
      simp only [get_available_slots, hres]
      by_cases hw : (!h.is_working) = true
      · rw [if_pos hw]
        exact List.Pairwise.nil
      · rw [if_neg hw]
        by_cases hfd : hasApprovedFullDayTimeOff staff d = true
        · rw [if_pos hfd]
          exact List.Pairwise.nil
        · rw [if_neg hfd]
          cases hloop : slotsLoop dur int h.end_time h.break_start h.break_end
              (h.end_time + 2) h.start_time [] with
          | none =>
            exact List.Pairwise.nil
          | some l =>
            exact slotsLoop_pairwise dur int h.end_time h.break_start h.break_end
              hint _ _ _ _ List.Pairwise.nil (by simp) hloop

/-- Closed witness for the amended C9 with interval 15 on the plain Monday
schedule. -/
theorem C9_amended_witness :
    (slotsLoop 60 15 1020 none none 1022 540 []).isSome = true ∧
    (get_available_slots exStaff 7 60 15).Pairwise (· < ·) :=
  C9_amended_terminates_ascending exStaff 7 60 15 1020 540 none none (by decide)

/-- C10 confirmed: a non-full-day time-off record with `start_time` or
`end_time` unset never blocks: removing it from the member's time-off list
changes neither `is_available` nor `is_staff_available_at`, for every date
and time, whatever the record's status and date range. -/
theorem C10_unset_partial_times_never_block (staff : StaffMember)
    (pre post : List StaffTimeOff) (r : StaffTimeOff) (d t : Nat)
    (hfd : r.is_full_day = false)
    (hun : r.start_time = none ∨ r.end_time = none) :
    is_available { staff with time_off := pre ++ r :: post } d t =
      is_available { staff with time_off := pre ++ post } d t ∧
    is_staff_available_at { staff with time_off := pre ++ r :: post } d t =
      is_staff_available_at { staff with time_off := pre ++ post } d t := by
  have hblk : ∀ t2 : Nat, recordBlocksTime t2 r = false := by
    intro t2
    rcases hun with hu | hu <;>
      cases hst2 : r.start_time <;> cases het2 : r.end_time <;>
        simp_all [recordBlocksTime]
  have hto : timeOffBlocksAt { staff with time_off := pre ++ r :: post } d t =
      timeOffBlocksAt { staff with time_off := pre ++ post } d t := by
    unfold timeOffBlocksAt
    simp only [List.filter_append, List.any_append, List.filter_cons]
    by_cases hc : approvedCovering d r = true
    · rw [if_pos hc]
      simp [hblk t]
    · rw [if_neg hc]
  constructor
  · unfold is_available
    rw [hto]
    rfl
  · unfold is_staff_available_at
    rw [hto]
    rfl

/-- Closed witness for C10: the approved record with unset `end_time` has no
effect on either availability check. -/
theorem C10_witness :
    is_available { exStaff with time_off := [] ++ exNoTimesOff :: [] } 7 600 =
      is_available { exStaff with time_off := [] ++ [] } 7 600 ∧
    is_staff_available_at { exStaff with time_off := [] ++ exNoTimesOff :: [] } 7 600 =
      is_staff_available_at { exStaff with time_off := [] ++ [] } 7 600 :=
  C10_unset_partial_times_never_block exStaff [] [] exNoTimesOff 7 600 rfl (Or.inr rfl)
